import Mathlib

/-!
Verification of the `Array_Wrapper` view type (repository Fibbles/array_wrapper).

The repository contains two variants of the header:
* `src/array_wrapper.hpp` (modelled below in namespace `fibb.hpp`), and
* a second variant embedded in `src/README.md` (namespace `fibb.readme`),
  which additionally defines ordering operators and assignment, and whose
  equality compares contents rather than pointers.

Shallow embedding: the value of the `m_array` pointer is an address `Addr`;
a heap maps each address to the list of elements of the storage block living
there.  A view (`Array_Wrapper`) stores only its address, exactly like the
single `pointer m_array` member of the C++ class.  The standard-library
algorithms the methods call (`std::equal`, `std::lexicographical_compare`,
`std::copy`, `std::fill_n`, `std::swap_ranges`) are embedded as list
functions following the reference implementations of the C++ standard.
-/

namespace fibb

/-- Addresses model the runtime value of the `m_array` pointer. -/
abbrev Addr := Nat

/-- A heap maps each address to the contents of the storage block there. -/
def Heap (α : Type) := Addr → List α

/-- Overwrite the storage block at address `a` with contents `l`. -/
def Heap.write {α : Type} (h : Heap α) (a : Addr) (l : List α) : Heap α :=
  fun x => if x = a then l else h x

/-- The view class: its single data member is the pointer `m_array`. -/
structure Array_Wrapper where
  m_array : Addr

/-- The contents of the storage block a view references. -/
def view {α : Type} (h : Heap α) (w : Array_Wrapper) : List α :=
  h w.m_array

theorem Heap.write_same {α : Type} (h : Heap α) (a : Addr) (l : List α) :
    h.write a l a = l := by
  simp [Heap.write]

theorem Heap.write_other {α : Type} (h : Heap α) (a b : Addr) (l : List α)
    (hab : b ≠ a) : h.write a l b = h b := by
  simp [Heap.write, hab]

/-- Embedding of `std::equal(first1, last1, first2)`: element-wise equality
driven by the first range (the second range supplies at least as many
elements in every use below). -/
def std_equal {α : Type} [DecidableEq α] : List α → List α → Bool
  | [], _ => true
  | _ :: _, [] => false
  | a :: as, b :: bs => decide (a = b) && std_equal as bs

/-- Embedding of `std::lexicographical_compare(first1, last1, first2, last2,
comp)`, following the reference implementation: walk both ranges in step;
`comp(*first1, *first2)` settles true, `comp(*first2, *first1)` settles
false, otherwise advance; at the end, true exactly when the first range was
exhausted and the second was not. -/
def std_lexicographical_compare {α : Type} (comp : α → α → Bool) :
    List α → List α → Bool
  | a :: as, b :: bs =>
      if comp a b then true
      else if comp b a then false
      else std_lexicographical_compare comp as bs
  | as, bs => as.isEmpty && !bs.isEmpty

/-- Embedding of `std::copy(first, last, d_first)`: the source range
overwrites the first `src.length` slots of the destination block. -/
def std_copy {α : Type} (src dest : List α) : List α :=
  src ++ dest.drop src.length

/-- Embedding of `std::fill_n(first, n, val)`: `val` overwrites the first
`n` slots of the destination block. -/
def std_fill_n {α : Type} (n : Nat) (val : α) (dest : List α) : List α :=
  List.replicate n val ++ dest.drop n

/- Methods defined identically in both header variants. -/

/-- Method `fill`: both variants run `std::fill_n(begin(), N, val)` on the
referenced storage. -/
def fill {α : Type} (N : Nat) (h : Heap α) (w : Array_Wrapper) (val : α) :
    Heap α :=
  h.write w.m_array (std_fill_n N val (view h w))

/-- Method `operator[]`: both variants return `m_array[pos]`, with no bounds
check (reading past the block is undefined behaviour; the model returns the
default element there). -/
def index {α : Type} [Inhabited α] (h : Heap α) (w : Array_Wrapper)
    (pos : Nat) : α :=
  (view h w).getD pos default

/-- Method `at`: both variants check `pos >= N` and throw
`std::out_of_range` built from the offending index `pos`; otherwise they
return `m_array[pos]`.  The error value of the `Except` is the offending
index the exception carries.  The method performs no write: it only reads
the heap. -/
def at_ {α : Type} [Inhabited α] (N : Nat) (h : Heap α) (w : Array_Wrapper)
    (pos : Nat) : Except Nat α :=
  if pos ≥ N then Except.error pos else Except.ok (index h w pos)

/-- Forward iteration `begin()` to `end()`: visits `m_array[0]` up to
`m_array[N-1]`, the first `N` elements of the referenced block. -/
def fwdTraverse {α : Type} (N : Nat) (h : Heap α) (w : Array_Wrapper) :
    List α :=
  (view h w).take N

/-- One step of reverse-iterator traversal: `std::reverse_iterator`
dereferences to the element just before its base, so walking from
`reverse_iterator(end())` to `reverse_iterator(begin())` visits index
`n-1`, then `n-2`, down to `0`. -/
def revTraverseAux {α : Type} [Inhabited α] (s : List α) : Nat → List α
  | 0 => []
  | n + 1 => s.getD n default :: revTraverseAux s n

/-- Reverse iteration `rbegin()` to `rend()` over the `N` elements. -/
def revTraverse {α : Type} [Inhabited α] (N : Nat) (h : Heap α)
    (w : Array_Wrapper) : List α :=
  revTraverseAux (view h w) N

namespace hpp

/-- Variant `src/array_wrapper.hpp`, `operator==`: returns
`m_array == other.m_array`, a comparison of the two pointers. -/
def eq (w1 w2 : Array_Wrapper) : Bool :=
  decide (w1.m_array = w2.m_array)

/-- Variant `src/array_wrapper.hpp`, `operator!=`: returns
`m_array != other.m_array`. -/
def ne (w1 w2 : Array_Wrapper) : Bool :=
  decide (w1.m_array ≠ w2.m_array)

/-- Variant `src/array_wrapper.hpp`, `empty()`: the body is `return N;`,
so the returned bool is the standard conversion of `N` to bool, true
exactly when `N` is nonzero. -/
def empty (N : Nat) : Bool :=
  decide (N ≠ 0)

/-- Variant `src/array_wrapper.hpp`, `swap(Array_Wrapper&)`: when the two
pointers differ, `std::swap_ranges(begin(), end(), other.begin())`
exchanges the first `N` elements of the two blocks; otherwise nothing
happens.  The method never assigns to either `m_array`, so it returns the
two views unchanged. -/
def swap {α : Type} (N : Nat) (h : Heap α) (w1 w2 : Array_Wrapper) :
    Heap α × Array_Wrapper × Array_Wrapper :=
  if w1.m_array ≠ w2.m_array then
    ((h.write w1.m_array ((view h w2).take N ++ (view h w1).drop N)).write
        w2.m_array ((view h w1).take N ++ (view h w2).drop N),
      w1, w2)
  else (h, w1, w2)

end hpp

namespace readme

/-- Variant in `src/README.md`, `operator==`: returns
`std::equal(begin(), end(), other.begin())`, comparing the `N` referenced
elements of the two blocks. -/
def eq {α : Type} [DecidableEq α] (N : Nat) (h : Heap α)
    (w1 w2 : Array_Wrapper) : Bool :=
  std_equal ((view h w1).take N) (view h w2)

/-- Variant in `src/README.md`, `operator!=`: returns `!(*this == other)`. -/
def ne {α : Type} [DecidableEq α] (N : Nat) (h : Heap α)
    (w1 w2 : Array_Wrapper) : Bool :=
  !(eq N h w1 w2)

/-- Variant in `src/README.md`, `operator<`:
`std::lexicographical_compare(begin(), end(), other.begin(), other.end())`
with the default comparator `<`. -/
def lt {α : Type} [LinearOrder α] (N : Nat) (h : Heap α)
    (w1 w2 : Array_Wrapper) : Bool :=
  std_lexicographical_compare (fun a b => decide (a < b))
    ((view h w1).take N) ((view h w2).take N)

/-- Variant in `src/README.md`, `operator>`: `std::lexicographical_compare`
with the comparator `a > b`. -/
def gt {α : Type} [LinearOrder α] (N : Nat) (h : Heap α)
    (w1 w2 : Array_Wrapper) : Bool :=
  std_lexicographical_compare (fun a b => decide (a > b))
    ((view h w1).take N) ((view h w2).take N)

/-- Variant in `src/README.md`, `operator<=`: `std::lexicographical_compare`
with the comparator `a <= b`. -/
def le {α : Type} [LinearOrder α] (N : Nat) (h : Heap α)
    (w1 w2 : Array_Wrapper) : Bool :=
  std_lexicographical_compare (fun a b => decide (a ≤ b))
    ((view h w1).take N) ((view h w2).take N)

/-- Variant in `src/README.md`, `operator>=`: `std::lexicographical_compare`
with the comparator `a >= b`. -/
def ge {α : Type} [LinearOrder α] (N : Nat) (h : Heap α)
    (w1 w2 : Array_Wrapper) : Bool :=
  std_lexicographical_compare (fun a b => decide (a ≥ b))
    ((view h w1).take N) ((view h w2).take N)

/-- Variant in `src/README.md`, `empty()`: returns `N == 0`. -/
def empty (N : Nat) : Bool :=
  decide (N = 0)

/-- Variant in `src/README.md`, copy `operator=(const Array_Wrapper&)`:
when `*this != other` (a contents comparison), `std::copy` writes the `N`
source elements into the currently referenced block; `m_array` is never
assigned, so the method returns the destination view unchanged
(`return *this`). -/
def assign {α : Type} [DecidableEq α] (N : Nat) (h : Heap α)
    (dst src : Array_Wrapper) : Heap α × Array_Wrapper :=
  if ne N h dst src then
    (h.write dst.m_array (std_copy ((view h src).take N) (view h dst)), dst)
  else (h, dst)

/-- Variant in `src/README.md`, move `operator=(Array_Wrapper&&)`: same
guard `*this != other`, then `std::move` of the `N` elements into the
referenced block; for the value types modelled here moving an element
copies it. -/
def assign_move {α : Type} [DecidableEq α] (N : Nat) (h : Heap α)
    (dst src : Array_Wrapper) : Heap α × Array_Wrapper :=
  if ne N h dst src then
    (h.write dst.m_array (std_copy ((view h src).take N) (view h dst)), dst)
  else (h, dst)

/-- Variant in `src/README.md`, `operator=(const std::array<T,N>&)`: the
guard compares `m_array` with `other.data()` (pointer identity), then
`std::copy` writes the `N` elements of the `std::array` block (living at
`srcAddr`) into the referenced block. -/
def assign_array {α : Type} (N : Nat) (h : Heap α) (dst : Array_Wrapper)
    (srcAddr : Addr) : Heap α × Array_Wrapper :=
  if dst.m_array ≠ srcAddr then
    (h.write dst.m_array (std_copy ((h srcAddr).take N) (view h dst)), dst)
  else (h, dst)

/-- Variant in `src/README.md`, `swap(Array_Wrapper&)`: when
`*this != other` (a contents comparison), `std::swap_ranges` exchanges the
first `N` elements of the two blocks; `m_array` is never assigned. -/
def swap {α : Type} [DecidableEq α] (N : Nat) (h : Heap α)
    (w1 w2 : Array_Wrapper) : Heap α × Array_Wrapper × Array_Wrapper :=
  if ne N h w1 w2 then
    ((h.write w1.m_array ((view h w2).take N ++ (view h w1).drop N)).write
        w2.m_array ((view h w1).take N ++ (view h w2).drop N),
      w1, w2)
  else (h, w1, w2)

/-- The branch condition under which copy assignment skips the element-wise
copy: the negation of the guard `*this != other`. -/
def assign_skips {α : Type} [DecidableEq α] (N : Nat) (h : Heap α)
    (dst src : Array_Wrapper) : Bool :=
  !(ne N h dst src)

/-- The branch condition under which move assignment skips the element-wise
move: the negation of the guard `*this != other`. -/
def assign_move_skips {α : Type} [DecidableEq α] (N : Nat) (h : Heap α)
    (dst src : Array_Wrapper) : Bool :=
  !(ne N h dst src)

/-- The branch condition under which `swap` skips the element-wise
exchange: the negation of the guard `*this != other`. -/
def swap_skips {α : Type} [DecidableEq α] (N : Nat) (h : Heap α)
    (w1 w2 : Array_Wrapper) : Bool :=
  !(ne N h w1 w2)

end readme

/-- Modelled from the spec: lexicographic strict comparison of contents,
the order the spec means by "lexicographic comparison of contents". -/
def spec_lexLt {α : Type} [LinearOrder α] : List α → List α → Bool
  | _, [] => false
  | [], _ :: _ => true
  | a :: as, b :: bs => decide (a < b) || (decide (a = b) && spec_lexLt as bs)

/-- Modelled from the spec: lexicographic less-or-equal on contents. -/
def spec_lexLe {α : Type} [LinearOrder α] [DecidableEq α]
    (l1 l2 : List α) : Bool :=
  spec_lexLt l1 l2 || decide (l1 = l2)

/-- A concrete heap with storage blocks at addresses 0 and 1, used for
concrete evaluations. -/
def heap2 (l1 l2 : List Int) : Heap Int :=
  fun a => if a = 0 then l1 else if a = 1 then l2 else []

/-- A view over the block at address 0. -/
def w0 : Array_Wrapper := ⟨0⟩

/-- A view over the block at address 1. -/
def w1 : Array_Wrapper := ⟨1⟩

/-- C1: the claim states that `operator==` is decided element-by-element by
contents, never by identity of the referenced storage.  In
`src/array_wrapper.hpp` the body is `return m_array == other.m_array;`, a
pointer-identity comparison: two views over distinct storages at addresses
0 and 1, both holding `[7]`, have equal contents, yet `operator==` of the
hpp variant returns false.  The README variant (whose comment documents
std::array-equivalent behaviour, the documented intent) compares contents
and returns true on the same input. -/
theorem C1_hpp_eq_is_pointer_identity :
    view (heap2 [7] [7]) w0 = view (heap2 [7] [7]) w1
    ∧ hpp.eq w0 w1 = false
    ∧ readme.eq 1 (heap2 [7] [7]) w0 w1 = true := by
  refine ⟨by decide, by decide, by decide⟩

/-- C4: the claim states that `empty()` returns false for every supported
view (`N > 0`).  In `src/array_wrapper.hpp` the body is `return N;`, whose
bool conversion is true for every `N > 0`; the README variant computes
`N == 0` and returns false as the claim states. -/
theorem C4_hpp_empty_is_true :
    hpp.empty 5 = true ∧ readme.empty 5 = false := by
  refine ⟨by decide, by decide⟩

theorem view_write {α : Type} (h : Heap α) (a : Addr) (l : List α)
    (w : Array_Wrapper) :
    view (h.write a l) w = if w.m_array = a then l else view h w := by
  simp [view, Heap.write]

theorem std_equal_iff {α : Type} [DecidableEq α] :
    ∀ a b : List α, a.length = b.length → (std_equal a b = true ↔ a = b) := by
  intro a
  induction a with
  | nil =>
      intro b hb
      cases b with
      | nil => simp [std_equal]
      | cons y ys => simp at hb
  | cons x xs ih =>
      intro b hb
      cases b with
      | nil => simp at hb
      | cons y ys =>
          simp only [std_equal, Bool.and_eq_true, decide_eq_true_eq]
          rw [ih ys (by simpa using hb)]
          constructor
          · rintro ⟨hxy, hrest⟩
            rw [hxy, hrest]
          · intro hc
            injection hc with hxy hrest
            exact ⟨hxy, hrest⟩

theorem readme_eq_iff {α : Type} [DecidableEq α] (N : Nat) (h : Heap α)
    (v1 v2 : Array_Wrapper) (h1 : (view h v1).length = N)
    (h2 : (view h v2).length = N) :
    readme.eq N h v1 v2 = true ↔ view h v1 = view h v2 := by
  rw [readme.eq]
  have ht1 : (view h v1).take N = view h v1 := by
    rw [← h1]
    exact List.take_length _
  rw [ht1]
  exact std_equal_iff _ _ (h1.trans h2.symm)

/-- C2: the claim states that each of the four ordering operators returns
exactly the lexicographic comparison of contents.  `operator<` does (the
concrete example of the spec holds: a view over `[1,2,3]` is less than one
over `[3,2,1]`), but `operator<=` passes the non-strict comparator
`a <= b` to `std::lexicographical_compare`, which then settles at the very
first element pair: on views over `[1,5]` and `[1,2]` it returns true,
although `[1,5]` is lexicographically greater than `[1,2]`.  `operator>=`
fails symmetrically on views over `[1,2]` and `[1,5]`.  This contradicts
the comment of the same file, which documents std::array-equivalent
behaviour. -/
theorem C2_le_ge_not_lexicographic :
    readme.lt 3 (heap2 [1, 2, 3] [3, 2, 1]) w0 w1 = true
    ∧ readme.le 2 (heap2 [1, 5] [1, 2]) w0 w1 = true
    ∧ readme.ge 2 (heap2 [1, 2] [1, 5]) w0 w1 = true
    ∧ spec_lexLe [(1 : Int), 5] [1, 2] = false := by
  refine ⟨by decide, by decide, by decide, by decide⟩

/-- C3: checked access `at(pos)` returns the element in slot `pos` when
`pos < N`, and fails with an out-of-range error carrying the offending
index `pos` when `pos ≥ N`.  The model of `at` only reads the heap (the
source performs no write on either path), so the storage contents are
untouched; it is the only operation of the embedding whose result type
admits an error, and the error carries exactly the index. -/
theorem C3_at_ok_or_out_of_range {α : Type} [Inhabited α] (N : Nat)
    (h : Heap α) (w : Array_Wrapper) (pos : Nat) :
    (pos < N → at_ N h w pos = Except.ok (index h w pos))
    ∧ (N ≤ pos → at_ N h w pos = Except.error pos) := by
  constructor
  · intro hlt
    have hge : ¬ pos ≥ N := by omega
    simp [at_, hge]
  · intro hge
    simp [at_, hge]

/-- Witness for C3, on the concrete scenario of the spec: storage
`[1,3,5,7,9]` with `N = 5`; `at(2)` returns 5 and `at(5)` fails with
out-of-range carrying 5. -/
theorem C3_at_ok_or_out_of_range_witness :
    at_ 5 (heap2 [1, 3, 5, 7, 9] []) w0 2 = Except.ok 5
    ∧ at_ 5 (heap2 [1, 3, 5, 7, 9] []) w0 5 = Except.error 5 :=
  ⟨((C3_at_ok_or_out_of_range 5 (heap2 [1, 3, 5, 7, 9] []) w0 2).1
      (by decide)).trans rfl,
    (C3_at_ok_or_out_of_range 5 (heap2 [1, 3, 5, 7, 9] []) w0 5).2
      (by decide)⟩

/-- C8: `fill(val)` writes `val` into every one of the `N` referenced
slots (the first `N` slots of the block become `replicate N val`), and
filling twice with the same value leaves the contents identical to those
after the first fill. -/
theorem C8_fill_all_slots_and_idempotent {α : Type} (N : Nat) (h : Heap α)
    (w : Array_Wrapper) (val : α) :
    (view (fill N h w val) w).take N = List.replicate N val
    ∧ view (fill N (fill N h w val) w val) w = view (fill N h w val) w := by
  have hview : ∀ h0 : Heap α,
      view (fill N h0 w val) w = std_fill_n N val (view h0 w) := by
    intro h0
    simp [fill, view, Heap.write]
  constructor
  · rw [hview, std_fill_n]
    exact List.take_left' (List.length_replicate N val)
  · rw [hview, hview]
    simp only [std_fill_n]
    rw [List.drop_left' (List.length_replicate N val)]

/-- C9: for every valid index `i < N`, unchecked access `operator[]` and
checked access `at` return the same slot, hence the same value. -/
theorem C9_index_at_agree {α : Type} [Inhabited α] (N : Nat) (h : Heap α)
    (w : Array_Wrapper) (i : Nat) (hi : i < N) :
    at_ N h w i = Except.ok (index h w i) := by
  have hge : ¬ i ≥ N := by omega
  simp [at_, hge]

/-- Witness for C9 at the concrete scenario of the spec: index 2 of the
storage `[1,3,5,7,9]`. -/
theorem C9_index_at_agree_witness :
    at_ 5 (heap2 [1, 3, 5, 7, 9] []) w0 2
      = Except.ok (index (heap2 [1, 3, 5, 7, 9] []) w0 2) :=
  C9_index_at_agree 5 (heap2 [1, 3, 5, 7, 9] []) w0 2 (by decide)

/-- C5: assign-through.  After copy assignment, move assignment, or
assignment from a like-sized `std::array` (the block at `srcAddr`), the
contents of the referenced storage equal the contents of the source, and
the view still references the same storage location: the returned view is
the unchanged destination view (`m_array` is never assigned). -/
theorem C5_assign_writes_through {α : Type} [DecidableEq α] (N : Nat)
    (h : Heap α) (dst src : Array_Wrapper) (srcAddr : Addr)
    (hd : (view h dst).length = N) (hs : (view h src).length = N)
    (ha : (h srcAddr).length = N) :
    view (readme.assign N h dst src).1 dst = view h src
    ∧ (readme.assign N h dst src).2 = dst
    ∧ view (readme.assign_move N h dst src).1 dst = view h src
    ∧ (readme.assign_move N h dst src).2 = dst
    ∧ view (readme.assign_array N h dst srcAddr).1 dst = h srcAddr
    ∧ (readme.assign_array N h dst srcAddr).2 = dst := by
  have hdrop : (view h dst).drop N = [] :=
    List.drop_eq_nil_of_le (by rw [hd])
  have hcopy : ∀ s : List α, s.length = N →
      view (h.write dst.m_array (std_copy (s.take N) (view h dst))) dst
        = s := by
    intro s hslen
    have hts : s.take N = s := by
      rw [← hslen]
      exact List.take_length s
    rw [view_write]
    simp [std_copy, hts, hslen, hdrop]
  have hview : ∀ pair : Heap α × Array_Wrapper,
      pair = (h, dst) → view pair.1 dst = view h dst := by
    intro pair hp
    rw [hp]
  have hsame : readme.ne N h dst src = false → view h dst = view h src := by
    intro hf
    rw [readme.ne] at hf
    exact (readme_eq_iff N h dst src hd hs).mp (by simpa using hf)
  refine ⟨?_, ?_, ?_, ?_, ?_, ?_⟩
  · cases hne : readme.ne N h dst src with
    | true =>
        simp only [readme.assign, hne, if_true]
        exact hcopy (view h src) hs
    | false =>
        simp only [readme.assign, hne, Bool.false_eq_true, if_false]
        exact hsame hne
  · rw [readme.assign]
    split <;> rfl
  · cases hne : readme.ne N h dst src with
    | true =>
        simp only [readme.assign_move, hne, if_true]
        exact hcopy (view h src) hs
    | false =>
        simp only [readme.assign_move, hne, Bool.false_eq_true, if_false]
        exact hsame hne
  · rw [readme.assign_move]
    split <;> rfl
  · by_cases haddr : dst.m_array ≠ srcAddr
    · rw [readme.assign_array, if_pos haddr]
      exact hcopy (h srcAddr) ha
    · have haddr2 : dst.m_array = srcAddr := by
        by_contra hc
        exact haddr hc
      rw [readme.assign_array, if_neg haddr]
      rw [view, haddr2]
  · rw [readme.assign_array]
    split <;> rfl

/-- Witness for C5: with distinct storages `[1,2,3]` at address 0 and
`[4,5,6]` at address 1, assigning the view over address 1 (and the array
block at address 1) into the view over address 0 leaves `[4,5,6]` in the
block at address 0. -/
theorem C5_assign_writes_through_witness :
    view (readme.assign 3 (heap2 [1, 2, 3] [4, 5, 6]) w0 w1).1 w0
      = [4, 5, 6]
    ∧ view (readme.assign_array 3 (heap2 [1, 2, 3] [4, 5, 6]) w0 1).1 w0
      = [4, 5, 6] := by
  have C := C5_assign_writes_through 3 (heap2 [1, 2, 3] [4, 5, 6]) w0 w1 1
    (by decide) (by decide) (by decide)
  exact ⟨C.1.trans (by decide), C.2.2.2.2.1.trans (by decide)⟩

/-- C6 counterexample: the claim states the no-op case of assignment, move
assignment, and swap is detected by reference identity of the storage and
happens only when both views reference the same storage.  In the README
variant the guard is `*this != other`, a contents comparison: over two
distinct storages at addresses 0 and 1 both holding `[5]`, all three
element-wise operations are skipped although the storages differ. -/
theorem C6_skip_without_same_storage :
    readme.assign_skips 1 (heap2 [5] [5]) w0 w1 = true
    ∧ readme.assign_move_skips 1 (heap2 [5] [5]) w0 w1 = true
    ∧ readme.swap_skips 1 (heap2 [5] [5]) w0 w1 = true
    ∧ w0.m_array ≠ w1.m_array := by
  refine ⟨by decide, by decide, by decide, by decide⟩

/-- C6 amended: copy assignment, move assignment, and swap between views
skip the element-wise operation if and only if the two referenced
storages hold equal contents — the guard `*this != other` compares
contents, not reference identity.  Two views over the same storage are
thereby skipped as a special case. -/
theorem C6_skip_iff_equal_contents {α : Type} [DecidableEq α] (N : Nat)
    (h : Heap α) (dst src : Array_Wrapper)
    (hd : (view h dst).length = N) (hs : (view h src).length = N) :
    (readme.assign_skips N h dst src = true ↔ view h dst = view h src)
    ∧ (readme.assign_move_skips N h dst src = true ↔ view h dst = view h src)
    ∧ (readme.swap_skips N h dst src = true ↔ view h dst = view h src)
    ∧ (dst.m_array = src.m_array → readme.assign_skips N h dst src = true) := by
  have hkey : (!(readme.ne N h dst src)) = true ↔ view h dst = view h src := by
    rw [readme.ne, Bool.not_not]
    exact readme_eq_iff N h dst src hd hs
  refine ⟨hkey, hkey, hkey, ?_⟩
  intro hm
  rw [readme.assign_skips]
  exact hkey.mpr (by rw [view, view, hm])

/-- Witness for C6 amended: two distinct storages both holding `[1,2]`
make swap skip its element-wise exchange. -/
theorem C6_skip_iff_equal_contents_witness :
    readme.swap_skips 2 (heap2 [1, 2] [1, 2]) w0 w1 = true :=
  ((C6_skip_iff_equal_contents 2 (heap2 [1, 2] [1, 2]) w0 w1
      (by decide) (by decide)).2.2.1).mpr (by decide)

/-- C7: swap over distinct storages exchanges the two blocks of contents;
swap over the same storage leaves the heap unchanged; swap never changes
which storage either view references (both views are returned unchanged,
as `m_array` is never assigned).  This holds for the hpp variant (guard by
pointer identity) and the README variant (guard by `*this != other`; when
that guard skips, the two blocks hold equal contents, so the exchanged
result is still obtained). -/
theorem C7_swap_exchanges_contents {α : Type} [DecidableEq α] (N : Nat)
    (h : Heap α) (v1 v2 : Array_Wrapper)
    (h1 : (view h v1).length = N) (h2 : (view h v2).length = N) :
    (v1.m_array ≠ v2.m_array →
        view (hpp.swap N h v1 v2).1 v1 = view h v2
        ∧ view (hpp.swap N h v1 v2).1 v2 = view h v1
        ∧ view (readme.swap N h v1 v2).1 v1 = view h v2
        ∧ view (readme.swap N h v1 v2).1 v2 = view h v1)
    ∧ (v1.m_array = v2.m_array →
        (hpp.swap N h v1 v2).1 = h ∧ (readme.swap N h v1 v2).1 = h)
    ∧ (hpp.swap N h v1 v2).2 = (v1, v2)
    ∧ (readme.swap N h v1 v2).2 = (v1, v2) := by
  have hta : (view h v1).take N = view h v1 := by
    rw [← h1]
    exact List.take_length _
  have htb : (view h v2).take N = view h v2 := by
    rw [← h2]
    exact List.take_length _
  have hda : (view h v1).drop N = [] := List.drop_eq_nil_of_le (by rw [h1])
  have hdb : (view h v2).drop N = [] := List.drop_eq_nil_of_le (by rw [h2])
  refine ⟨?_, ?_, ?_, ?_⟩
  · intro haddr
    have hsw1 : view ((h.write v1.m_array
          ((view h v2).take N ++ (view h v1).drop N)).write v2.m_array
          ((view h v1).take N ++ (view h v2).drop N)) v1 = view h v2 := by
      rw [view_write, view_write]
      simp [haddr, htb, hda]
    have hsw2 : view ((h.write v1.m_array
          ((view h v2).take N ++ (view h v1).drop N)).write v2.m_array
          ((view h v1).take N ++ (view h v2).drop N)) v2 = view h v1 := by
      rw [view_write]
      simp [hta, hdb]
    refine ⟨?_, ?_, ?_, ?_⟩
    · rw [hpp.swap, if_pos haddr]
      exact hsw1
    · rw [hpp.swap, if_pos haddr]
      exact hsw2
    · cases hne : readme.ne N h v1 v2 with
      | true =>
          simp only [readme.swap, hne, if_true]
          exact hsw1
      | false =>
          simp only [readme.swap, hne, Bool.false_eq_true, if_false]
          rw [readme.ne] at hne
          exact (readme_eq_iff N h v1 v2 h1 h2).mp (by simpa using hne)
    · cases hne : readme.ne N h v1 v2 with
      | true =>
          simp only [readme.swap, hne, if_true]
          exact hsw2
      | false =>
          simp only [readme.swap, hne, Bool.false_eq_true, if_false]
          rw [readme.ne] at hne
          exact ((readme_eq_iff N h v1 v2 h1 h2).mp (by simpa using hne)).symm
  · intro hm
    have heqv : view h v1 = view h v2 := by
      rw [view, view, hm]
    have hne : readme.ne N h v1 v2 = false := by
      rw [readme.ne, (readme_eq_iff N h v1 v2 h1 h2).mpr heqv]
      rfl
    constructor
    · simp [hpp.swap, hm]
    · simp [readme.swap, hne]
  · rw [hpp.swap]
    split <;> rfl
  · rw [readme.swap]
    split <;> rfl

/-- Witness for C7, on the concrete scenario of the spec: storages
`[1,2,3]` and `[3,2,1]`; after swap the first block holds `[3,2,1]` and
the second holds `[1,2,3]`. -/
theorem C7_swap_exchanges_contents_witness :
    view (hpp.swap 3 (heap2 [1, 2, 3] [3, 2, 1]) w0 w1).1 w0 = [3, 2, 1]
    ∧ view (readme.swap 3 (heap2 [1, 2, 3] [3, 2, 1]) w0 w1).1 w1
      = [1, 2, 3] := by
  have C := (C7_swap_exchanges_contents 3 (heap2 [1, 2, 3] [3, 2, 1]) w0 w1
    (by decide) (by decide)).1 (by decide)
  exact ⟨C.1.trans (by decide), C.2.2.2.trans (by decide)⟩

theorem revTraverseAux_eq_reverse_take {α : Type} [Inhabited α]
    (s : List α) : ∀ n : Nat, n ≤ s.length →
    revTraverseAux s n = (s.take n).reverse := by
  intro n
  induction n with
  | zero =>
      intro
      rfl
  | succ m ih =>
      intro hle
      have hm : m < s.length := by omega
      rw [revTraverseAux, ih (by omega)]
      have htake : s.take (m + 1) = s.take m ++ [s[m]] := by
        rw [List.take_succ, List.getElem?_eq_getElem hm]
        rfl
      have hgd : s.getD m default = s[m] := by
        rw [List.getD_eq_getElem?_getD, List.getElem?_eq_getElem hm]
        rfl
      rw [htake, List.reverse_append, hgd]
      rfl

/-- C10: the reverse iteration sequence (`rbegin()` to `rend()`) is
exactly the reversal of the forward sequence (`begin()` to `end()`): both
visit the same `N` elements, in reversed order, and both read the live
storage directly — overwriting the referenced block changes what the
forward traversal yields, with no snapshotting. -/
theorem C10_reverse_traversal {α : Type} [Inhabited α] (N : Nat)
    (h : Heap α) (w : Array_Wrapper) (hw : (view h w).length = N) :
    revTraverse N h w = (fwdTraverse N h w).reverse
    ∧ (fwdTraverse N h w).length = N
    ∧ (revTraverse N h w).length = N
    ∧ ∀ l : List α, fwdTraverse N (h.write w.m_array l) w = l.take N := by
  have hrev : revTraverse N h w = (fwdTraverse N h w).reverse :=
    revTraverseAux_eq_reverse_take (view h w) N (by rw [hw])
  have hlen : (fwdTraverse N h w).length = N := by
    rw [fwdTraverse, List.length_take, hw]
    exact Nat.min_self N
  refine ⟨hrev, hlen, ?_, ?_⟩
  · rw [hrev, List.length_reverse, hlen]
  · intro l
    rw [fwdTraverse, view_write]
    simp

/-- Witness for C10: over the storage `[1,2,3]` the reverse traversal is
the reversal of the forward traversal. -/
theorem C10_reverse_traversal_witness :
    revTraverse 3 (heap2 [1, 2, 3] []) w0
      = (fwdTraverse 3 (heap2 [1, 2, 3] []) w0).reverse :=
  (C10_reverse_traversal 3 (heap2 [1, 2, 3] []) w0 (by decide)).1

end fibb
